import Mathlib

/-!
Shallow embedding of the Xelix kernel core (frame allocator, interrupt
dispatch, pipes, ext2 read path, ELF loader, virtual-address allocator and
kernel heap) together with theorems settling the specification claims.
Every definition is transcribed from the C sources; functions that live in
translation units missing from the source snapshot are modelled from the
specification and marked as such in their doc comments.
-/

namespace Xelix

/- ====================================================================
   Frame allocator (src/memory/paging/frames.c)
   ==================================================================== -/

namespace Frames

/-- Modelled from the spec: `bitmap_findFirstClearedBit` from the bitmap
module (common/bitmap.c, not in the source snapshot). It returns the index
of the first clear bit; when every bit is set it returns 0, the sentinel
the caller `frames_allocateFrame` tests for with
`frameNum == 0 && bitmap_get(usedFrames, 0)`. -/
def bitmap_findFirstClearedBit (bm : List Bool) : Nat :=
  match bm.findIdx? (fun b => !b) with
  | some i => i
  | none => 0

/-- Modelled from the spec: `bitmap_get` returns bit `i` of the bitmap. -/
def bitmap_get (bm : List Bool) (i : Nat) : Bool := bm.getD i false

/-- Modelled from the spec: `bitmap_set` sets bit `i` of the bitmap. -/
def bitmap_set (bm : List Bool) (i : Nat) : List Bool := bm.set i true

/-- Modelled from the spec: `bitmap_clear` clears bit `i` of the bitmap. -/
def bitmap_clear (bm : List Bool) (i : Nat) : List Bool := bm.set i false

/-- Result of `frames_allocateFrame`: the returned frame number, the bitmap
after the call, and whether the out-of-memory message was printed. -/
structure AllocResult where
  frame : Nat
  bitmap : List Bool
  oomLogged : Bool
deriving DecidableEq, Repr

/-- Embedding of `frames_allocateFrame` (src/memory/paging/frames.c:27-39):
find the first cleared bit; if that is 0 while bit 0 is set, print the
out-of-memory message; then set the bit and return the frame number. -/
def frames_allocateFrame (bm : List Bool) : AllocResult :=
  let frameNum := bitmap_findFirstClearedBit bm
  let logged := frameNum = 0 && bitmap_get bm 0
  { frame := frameNum, bitmap := bitmap_set bm frameNum, oomLogged := logged }

/-- Embedding of `frames_freeFrame` (src/memory/paging/frames.c:41-49):
refuse (log and return) when the bit is not set, otherwise clear it. -/
def frames_freeFrame (bm : List Bool) (frameNum : Nat) : List Bool :=
  if bitmap_get bm frameNum ≠ true then bm else bitmap_clear bm frameNum

/-- The allocator behaviour exactly as claim C8 states it, for comparison
with the embedded code: return the smallest clear bit and set it, and fail
(no frame, bitmap untouched) when every bit is set. -/
def alloc_frame_claimed (bm : List Bool) : Option (Nat × List Bool) :=
  match bm.findIdx? (fun b => !b) with
  | some i => some (i, bm.set i true)
  | none => none

end Frames

/- ====================================================================
   Interrupt dispatch (src/src/interrupts/interrupts.c)
   ==================================================================== -/

namespace Interrupts

/-- A dispatch event: the vector number together with the nested dispatch
events that arrive while this dispatch is between setting and clearing the
`inInterrupt` flag (that is, during the handler invocation). -/
inductive IntTree : Type where
  | node : Nat → List IntTree → IntTree

mutual
/-- Embedding of `interrupt_callback` (src/src/interrupts/interrupts.c:28-44)
over a registration table `hnd` (`interruptHandlers[v] != 0`). Input: the
current value of the static `inInterrupt` flag and the dispatch event.
Output: the flag after the call and the maximum number of registered
handlers that were simultaneously executing during the call. The code sets
the flag, invokes the registered handler (during which the nested events
are dispatched against the then-current flag), and clears the flag; if the
flag was already set it returns at once, dropping the interrupt. -/
def interrupt_callback (hnd : Nat → Bool) (inInterrupt : Bool) :
    IntTree → Bool × Nat
  | IntTree.node vec nested =>
    if inInterrupt then (inInterrupt, 0)
    else
      let inner : Bool × Nat :=
        if hnd vec then
          let r := dispatchList hnd true nested
          (r.1, 1 + r.2)
        else (true, 0)
      (false, inner.2)

/-- Dispatch a list of events in order, threading the `inInterrupt` flag,
and record the maximum handler-execution depth observed. -/
def dispatchList (hnd : Nat → Bool) (flag : Bool) :
    List IntTree → Bool × Nat
  | [] => (flag, 0)
  | t :: ts =>
    let r1 := interrupt_callback hnd flag t
    let r2 := dispatchList hnd r1.1 ts
    (r2.1, max r1.2 r2.2)
end

end Interrupts

/- ====================================================================
   Pipes (src/src/fs/pipe.c)
   ==================================================================== -/

namespace Pipe

def PIPE_BUFFER_SIZE : Nat := 0x5000

/-- Embedding of `pipe_write` (src/src/fs/pipe.c:66-76) on the pipe buffer
contents: refuse with `EFBIG` (`none`) when the data would exceed the
capacity, otherwise append the bytes after the current contents. -/
def pipe_write (buf : List Nat) (src : List Nat) : Option (List Nat) :=
  if buf.length + src.length > PIPE_BUFFER_SIZE then none
  else some (buf ++ src)

/-- Embedding of the completing path of `pipe_read`
(src/src/fs/pipe.c:35-64): a call that returns has waited until
`data_size > 0`, caps `size` at `data_size`, copies `size` bytes from the
buffer head and moves the remaining bytes to the head. `none` stands for a
call that never completes because the buffer is empty (the `halt()` loop);
the `O_NONBLOCK` and closed-writer early returns transfer no data and are
not part of the byte-stream model. Returns the bytes copied out and the
buffer afterwards. -/
def pipe_read (buf : List Nat) (size : Nat) : Option (List Nat × List Nat) :=
  if buf.length = 0 then none
  else
    let n := min size buf.length
    some (buf.take n, buf.drop n)

/-- One pipe operation of a trace: a write of a byte string or a read
request of a given size. -/
inductive PipeOp : Type where
  | wr : List Nat → PipeOp
  | rd : Nat → PipeOp
deriving DecidableEq, Repr

/-- Trace state: the pipe buffer plus the concatenation of all bytes
written so far and of all bytes returned by reads so far. -/
structure TraceState where
  buf : List Nat
  written : List Nat
  readOut : List Nat
deriving DecidableEq, Repr

/-- One step of a pipe trace: a write that does not fit, or a read on an
empty buffer (which would block forever), aborts the trace. -/
def pipeStep (st : TraceState) : PipeOp → Option TraceState
  | PipeOp.wr d =>
    (pipe_write st.buf d).map fun b =>
      { buf := b, written := st.written ++ d, readOut := st.readOut }
  | PipeOp.rd n =>
    (pipe_read st.buf n).map fun p =>
      { buf := p.2, written := st.written, readOut := st.readOut ++ p.1 }

/-- Run a trace of interleaved pipe operations from the empty pipe. -/
def runTrace (ops : List PipeOp) : Option TraceState :=
  ops.foldlM pipeStep { buf := [], written := [], readOut := [] }

end Pipe

/- ====================================================================
   ext2 read path (src/src/fs/ext2.c)
   ==================================================================== -/

namespace Ext2

/-- On-disk superblock fields read by the initialization and read paths
(src/src/fs/ext2.c:38-75). `block_size` is the on-disk logarithmic field;
`superblock_to_blocksize` is `1024 << block_size`. -/
structure Superblock where
  block_count : Nat
  blocks_per_group : Nat
  inodes_per_group : Nat
  magic : Nat
  state : Nat
  inode_size : Nat
  features_compat : Nat
  features_incompat : Nat
  block_size : Nat
deriving DecidableEq, Repr

def SUPERBLOCK_MAGIC : Nat := 0xEF53
def SUPERBLOCK_STATE_CLEAN : Nat := 1

/-- Embedding of the macro `superblock_to_blocksize` (src/src/fs/ext2.c:118). -/
def superblock_to_blocksize (sb : Superblock) : Nat :=
  1024 <<< sb.block_size

/-- Inode fields used by the block-resolution and file-read code
(src/src/fs/ext2.c:88-109). `blocks` holds the 15 block pointers. -/
structure Inode where
  mode_isRegularFile : Bool
  size : Nat
  blocks : List Nat
deriving DecidableEq, Repr

/-- The block-number translation performed by `read_inode_block`
(src/src/fs/ext2.c:196-216). `tbl t i` is entry `i` of the uint32 table
stored in disk block `t` (a `direct_read_blocks` of one block followed by
an index); this mirrors the hard-coded 1024-byte-block constants 268 and
256 of the source. -/
def resolve_block (tbl : Nat → Nat → Nat) (inode : Inode) (block_num : Nat) : Nat :=
  if 12 ≤ block_num ∧ block_num < 268 then
    tbl (inode.blocks.getD 12 0) (block_num - 12)
  else if 268 ≤ block_num ∧ block_num < 12 + 256 * 256 then
    let indir_block_num := tbl (inode.blocks.getD 13 0) ((block_num - 268) / 256)
    tbl indir_block_num ((block_num - 268) % 256)
  else
    inode.blocks.getD block_num 0

/-- Embedding of `read_inode_block` (src/src/fs/ext2.c:189-230).
`readBlock b` models `direct_read_blocks(b, 1, buf)`, returning the bytes
of disk block `b` or `none` on an IDE read failure. Out-of-range block
numbers and unallocated (zero) translated block numbers yield `none`. -/
def read_inode_block (sb : Superblock) (tbl : Nat → Nat → Nat)
    (readBlock : Nat → Option (List Nat)) (inode : Inode) (block_num : Nat) :
    Option (List Nat) :=
  if block_num > sb.block_count then none
  else
    let real_block_num := resolve_block tbl inode block_num
    if real_block_num = 0 then none
    else readBlock real_block_num

/-- Embedding of `read_inode_blocks` (src/src/fs/ext2.c:233-246): read
logical blocks `0 .. num-1` into one continuous stream; any failing block
read fails the whole call. -/
def read_inode_blocks (sb : Superblock) (tbl : Nat → Nat → Nat)
    (readBlock : Nat → Option (List Nat)) (inode : Inode) :
    Nat → Option (List Nat)
  | 0 => some []
  | n + 1 => do
    let front ← read_inode_blocks sb tbl readBlock inode n
    let lastBlock ← read_inode_block sb tbl readBlock inode n
    pure (front ++ lastBlock)

/-- Result of `ext2_read_file`: the return value and the bytes that were
copied into `dest` (empty when nothing was copied). -/
structure ReadResult where
  ret : Int
  copied : List Nat
deriving DecidableEq, Repr

/-- Embedding of `ext2_read_file` (src/src/fs/ext2.c:373-448) for a file
descriptor with inode `inode` and offset `offset`. The descriptor/inode
validity checks (`EBADF`) are outside the byte-level model; a non-regular
file yields `EISDIR`. Note the source computes
`num_blocks = ceil((size + fp->offset) / block_size)` but copies
`memcpy(dest, tmp, size)` from the start of the stream. -/
def ext2_read_file (sb : Superblock) (tbl : Nat → Nat → Nat)
    (readBlock : Nat → Option (List Nat)) (inode : Inode)
    (offset : Nat) (size0 : Nat) : ReadResult :=
  if !inode.mode_isRegularFile then { ret := -1, copied := [] }
  else if inode.size < 1 then { ret := 0, copied := [] }
  else
    let size := if size0 > inode.size then inode.size else size0
    let bs := superblock_to_blocksize sb
    let num_blocks :=
      (size + offset) / bs + (if (size + offset) % bs ≠ 0 then 1 else 0)
    match read_inode_blocks sb tbl readBlock inode num_blocks with
    | none => { ret := 0, copied := [] }
    | some tmp => { ret := (size : Int), copied := tmp.take size }

/-- Byte `i` of the data stream of an inode whose logical blocks are read
by `read_inode_block`, when every block is one blocksize long: byte
`i % bs` of logical block `i / bs`. -/
def inodeByte (sb : Superblock) (tbl : Nat → Nat → Nat)
    (readBlock : Nat → Option (List Nat)) (inode : Inode) (i : Nat) : Nat :=
  let bs := superblock_to_blocksize sb
  ((read_inode_block sb tbl readBlock inode (i / bs)).getD []).getD (i % bs) 0

/-- Outcome of `ext2_init`: either no mount happened (with the reason), or
the filesystem was mounted at `/`. -/
inductive InitOutcome : Type where
  | badMagic
  | notClean
  | bgReadFailed
  | rootInodeFailed
  | mounted
deriving DecidableEq, Repr

/-- The ext2 global state touched by `ext2_init`: the three cached
singletons and whether the `vfs_mount("/", ...)` call was made. The
`superblock` field models what the global `superblock` pointer refers to
(`none` when it is null or was `kfree`d). -/
structure Ext2State where
  superblock : Option Superblock
  blockgroup_table_installed : Bool
  root_inode_installed : Bool
  mount_registered : Bool
deriving DecidableEq, Repr

/-- Embedding of `ext2_init` (src/src/fs/ext2.c:514-598) given the
superblock read from sectors 2 and 3 and the success of the two later disk
reads (blockgroup table, root inode). The superblock global is assigned
before any validation. Invalid magic and a non-clean state abort; a
nonzero `features_incompat` only logs a warning (the `return` in that
branch is commented out in the source) and initialization continues to
the `vfs_mount` call. -/
def ext2_init (sb : Superblock) (bgReadOk : Bool) (rootReadOk : Bool)
    (st : Ext2State) : Ext2State × InitOutcome :=
  let st := { st with superblock := some sb }
  if sb.magic ≠ SUPERBLOCK_MAGIC then (st, InitOutcome.badMagic)
  else if sb.state ≠ SUPERBLOCK_STATE_CLEAN then (st, InitOutcome.notClean)
  else if !bgReadOk then
    ({ st with superblock := none }, InitOutcome.bgReadFailed)
  else if !rootReadOk then
    ({ st with superblock := none }, InitOutcome.rootInodeFailed)
  else
    ({ st with blockgroup_table_installed := true,
               root_inode_installed := true,
               mount_registered := true }, InitOutcome.mounted)

end Ext2

/- ====================================================================
   ELF loader (src/src/tasks/elf.c)
   ==================================================================== -/

namespace Elf

def slashChar : Char := '/'
def dotChar : Char := '.'

/-- Split a character list at a separator character: the list of the
separator-free chunks, with empty chunks kept (as `strtok`-style walks
over `/` see them). -/
def splitChar (c : Char) : List Char → List (List Char)
  | [] => [[]]
  | a :: rest =>
    if a = c then [] :: splitChar c rest
    else
      match splitChar c rest with
      | g :: gs => (a :: g) :: gs
      | [] => [[a]]

/-- Modelled from the spec: `vfs_normalize_path` (fs/vfs.c, not in the
source snapshot). Absolute paths are split at slashes; relative paths are
resolved against the base; empty components and `.` are dropped and `..`
pops one component; the result is an absolute path. -/
def vfs_normalize_path (p base : String) : String :=
  let comps :=
    if p.data.head? = some slashChar then splitChar slashChar p.data
    else splitChar slashChar base.data ++ splitChar slashChar p.data
  let stack : List (List Char) := comps.foldl
    (fun st c =>
      if c = [] ∨ c = [dotChar] then st
      else if c = [dotChar, dotChar] then st.dropLast
      else st ++ [c])
    []
  match stack with
  | [] => String.mk [slashChar]
  | _ => String.mk (stack.foldl (fun acc comp => acc ++ slashChar :: comp) [])

/-- The fixed 16-byte identity `elf_magic` (src/src/tasks/elf.c:40). -/
def elf_magic : List Nat :=
  [0x7f, 0x45, 0x4c, 0x46, 1, 1, 1, 0, 0, 0, 0, 0, 0, 0, 0, 0]

/-- Little-endian read of `n` bytes of `file` starting at `off`. -/
def readLE (file : List Nat) (off : Nat) : Nat → Nat
  | 0 => 0
  | k + 1 => file.getD off 0 + 256 * readLE file (off + 1) k

/-- A memory region registered with a task by `task_add_mem`. -/
structure Region where
  virt : Nat
  phys : Nat
  size : Nat
  sectionTag : Nat
  flags : Nat
deriving DecidableEq, Repr

/-- The task fields touched by the ELF loader: `binary_path` (written by
`elf_load_file` before validation), `entry`, `sbrk`, the memory region
list, an abstract `cpu_state`, the working directory used for path
normalization, and `elf_ctx.interp`. -/
structure Task where
  cwd : String
  binary_path : String
  entry : Nat
  sbrk : Nat
  mem : List Region
  cpu : Nat
  interp : Option String
deriving DecidableEq, Repr

/-- Constants from the ELF headers checked by `load_file`; the numeric
values (ET_EXEC, EM_386, EV_CURRENT) come from the ELF specification, the
checks themselves from src/src/tasks/elf.c:191-198. -/
def ELF_TYPE_EXEC : Nat := 2
def ELF_ARCH_386 : Nat := 3
def ELF_VERSION_CURRENT : Nat := 1

/-- Embedding of `load_file` (src/src/tasks/elf.c:178-209). `fs` maps an
absolute path to the file bytes (`none`: `vfs_open` fails); `readPheads`
stands for `read_pheads` (program-header loading, which allocates segment
memory and may mutate the task before failing) and returns its `int`
result together with the task afterwards. A header `bin_read` needs all
`sizeof(elf_t) = 52` bytes; the identity check compares the first 16 bytes
with `elf_magic`. On success of the header checks and `read_pheads`, the
entry point is recorded for the main binary. -/
def load_file (readPheads : Task → List Nat → Bool → Int × Task)
    (fs : String → Option (List Nat)) (t : Task) (path : String)
    (is_main : Bool) : Int × Task :=
  match fs path with
  | none => (-1, t)
  | some file =>
    if file.length < 52 then (-1, t)
    else if file.take 16 ≠ elf_magic then (-1, t)
    else if is_main ∧ readLE file 16 2 ≠ ELF_TYPE_EXEC then (-1, t)
    else if readLE file 18 2 ≠ ELF_ARCH_386 then (-1, t)
    else if readLE file 20 4 ≠ ELF_VERSION_CURRENT then (-1, t)
    else if readLE file 24 4 = 0 then (-1, t)
    else if readLE file 44 2 = 0 then (-1, t)
    else if readLE file 48 2 = 0 then (-1, t)
    else
      let r := readPheads t file is_main
      if r.1 = -1 then (-1, r.2)
      else (0, if is_main then { r.2 with entry := readLE file 24 4 } else r.2)

/-- Errno values surfaced by `elf_load_file`. -/
inductive Errno : Type where
  | ENOEXEC
deriving DecidableEq, Repr

/-- Result of `elf_load_file`: return value, `sc_errno` when set, and the
task afterwards. -/
structure LoadResult where
  ret : Int
  errno : Option Errno
  task : Task
deriving DecidableEq, Repr

/-- Embedding of `elf_load_file` (src/src/tasks/elf.c:211-249). The
normalized path is copied into `task->binary_path` by `strncpy` before
`load_file` runs any validation. On any `load_file` failure the function
returns `-1` with `sc_errno = ENOEXEC`. On success, a recorded `PT_INTERP`
interpreter is loaded by a second `load_file`, and finally
`task_set_initial_state` (tasks/task.c, not in the source snapshot;
abstracted as `setInitialState`) initializes the task's cpu state. -/
def elf_load_file (readPheads : Task → List Nat → Bool → Int × Task)
    (setInitialState : Task → Task) (fs : String → Option (List Nat))
    (t : Task) (path : String) : LoadResult :=
  let abs_path := vfs_normalize_path path t.cwd
  let t1 := { t with binary_path := abs_path }
  let r := load_file readPheads fs t1 abs_path true
  if r.1 < 0 then { ret := -1, errno := some Errno.ENOEXEC, task := r.2 }
  else
    match r.2.interp with
    | some interpPath =>
      let r2 := load_file readPheads fs r.2 interpPath true
      if r2.1 < 0 then { ret := -1, errno := some Errno.ENOEXEC, task := r2.2 }
      else { ret := 0, errno := none, task := setInitialState r2.2 }
    | none => { ret := 0, errno := none, task := setInitialState r.2 }

end Elf

/- ====================================================================
   Virtual-address allocator (src/src/mem/valloc.c)
   ==================================================================== -/

namespace Valloc

def PAGE_SIZE : Nat := 4096

/-- A `vmem_t` range of a valloc context: virtual start, byte size, the
contiguous physical backing (`none` for a mapped range whose backing is a
shard list, as produced by `vmap`), and the `VM_USER` flag bit. -/
structure VRange where
  addr : Nat
  size : Nat
  phys : Option Nat
  user : Bool
deriving DecidableEq, Repr

/-- A valloc context: the per-page VA bitmap and the range list. -/
structure Ctx where
  bitmap : List Bool
  ranges : List VRange
deriving DecidableEq, Repr

/-- Modelled from the spec: `bitmap_find` of the bitmap module (not in the
source snapshot) — find the first run of `size` clear bits and return its
first index. -/
def bitmap_find (bm : List Bool) (size : Nat) : Option Nat :=
  (List.range bm.length).find? fun p =>
    decide (p + size ≤ bm.length) &&
      ((List.range size).all fun j => !(bm.getD (p + j) false))

/-- Modelled from the spec: `bitmap_set(bm, start, count)` sets a run of
bits. -/
def bitmap_set_range (bm : List Bool) (start count : Nat) : List Bool :=
  (List.range count).foldl (fun b j => b.set (start + j) true) bm

/-- Embedding of `alloc_virt` (src/src/mem/valloc.c:41-60) for the
`request == NULL` case used by `vmap`: find a clear run of `size` pages,
set the bits, and return the virtual address. -/
def alloc_virt (ctx : Ctx) (size : Nat) : Option (Nat × Ctx) :=
  match bitmap_find ctx.bitmap size with
  | none => none
  | some page_num =>
    some (page_num * PAGE_SIZE,
      { ctx with bitmap := bitmap_set_range ctx.bitmap page_num size })

/-- Embedding of `get_range` (src/src/mem/valloc.c:62-76) for a virtual
(`phys == false`) lookup: the address's bitmap bit must be set, then the
range list is scanned for the range containing the address. -/
def get_range (ctx : Ctx) (addr : Nat) : Option VRange :=
  if !(ctx.bitmap.getD (addr / PAGE_SIZE) false) then none
  else ctx.ranges.find? fun r =>
    decide (r.addr ≤ addr ∧ addr < r.addr + r.size)

/-- A shard recorded by `vmap`: destination virtual address and physical
address of one mapped page. -/
structure Shard where
  addr : Nat
  phys : Nat
deriving DecidableEq, Repr

/-- Outcome of a `vmap` call: a successful return of the destination
virtual address, a `NULL` return to the caller, or a kernel `panic`. Each
carries the destination context as it is at that moment. -/
inductive VmapResult : Type where
  | ok : Nat → Ctx → List Shard → VmapResult
  | nullReturn : Ctx → VmapResult
  | panicked : Ctx → VmapResult
deriving DecidableEq, Repr

/-- The page-mapping loop of `vmap` (src/src/mem/valloc.c:242-283), a
do-while over `pages_mapped`; the first argument is the list of remaining
`pages_mapped` values (the do-while executes its body at least once, so
the list passed in is never empty). For each page: look up the enclosing
source range (`NULL` return on failure unless the under-allocation
workaround flag breaks the loop), panic on a sharded source range
(`src_range->phys == NULL`), `NULL` return when `VM_MAP_USER_ONLY` meets a
non-user range, otherwise record a shard and map the page. -/
def vmapLoop (src : Ctx) (dst : Ctx) (virt src_addr src_aligned : Nat)
    (user_only underalloc : Bool) :
    List Nat → List Shard → VmapResult
  | [], shards => VmapResult.ok (virt + src_addr % PAGE_SIZE) dst shards
  | pages_mapped :: rest, shards =>
    let pages_offset := pages_mapped * PAGE_SIZE
    match get_range src (src_aligned + pages_offset) with
    | none =>
      if underalloc then
        VmapResult.ok (virt + src_addr % PAGE_SIZE) dst shards
      else VmapResult.nullReturn dst
    | some src_range =>
      if src_range.phys = none then VmapResult.panicked dst
      else if user_only ∧ !src_range.user then VmapResult.nullReturn dst
      else
        let shard : Shard :=
          { addr := virt + pages_offset,
            phys := src_range.phys.getD 0 +
              (src_addr - src_range.addr) / PAGE_SIZE * PAGE_SIZE +
              pages_offset }
        vmapLoop src dst virt src_addr src_aligned user_only underalloc
          rest (shard :: shards)

/-- Embedding of `vmap` (src/src/mem/valloc.c:200-298): align the source
address down, allocate `ceil((src_addr % PAGE_SIZE + size) / PAGE_SIZE)`
fresh pages in the destination context (mutating its VA bitmap), then run
the page-mapping loop over `pages_mapped = 0, 1, ...` (at least one pass,
mirroring the do-while). -/
def vmap (dst : Ctx) (src : Ctx) (src_addr size : Nat)
    (user_only underalloc : Bool) : VmapResult :=
  let src_aligned := src_addr / PAGE_SIZE * PAGE_SIZE
  let src_offset := src_addr % PAGE_SIZE
  let size_pages := (size + src_offset + PAGE_SIZE - 1) / PAGE_SIZE
  match alloc_virt dst size_pages with
  | none => VmapResult.nullReturn dst
  | some vd =>
    vmapLoop src vd.2 vd.1 src_addr src_aligned user_only underalloc
      (List.range (max size_pages 1)) []

end Valloc

/- ====================================================================
   Kernel heap (src/src/mem/kmalloc.c)
   ==================================================================== -/

namespace Kmalloc

/-- `sizeof(struct mem_block)` without the optional debug magic:
a `uint32_t` size and the `int`-sized type enum. -/
def HDR : Nat := 8

/-- The `uint32_t` footer written after each block's content. -/
def FTR : Nat := 4

/-- `sizeof(struct free_block)`: two pointers, the minimum content size. -/
def MINSZ : Nat := 8

def PAGE_SIZE : Nat := 4096

/-- One arena block: its content size (the header `size` field, mirrored
in the footer) and whether its type is `TYPE_FREE`. -/
structure Block where
  size : Nat
  free : Bool
deriving DecidableEq, Repr

/-- Header + content + footer extent of a block (the `FULL_SIZE` macro). -/
def fullSize (b : Block) : Nat := b.size + HDR + FTR

/-- The kernel heap arena: `alloc_start`, the blocks in address order
(packed contiguously from `alloc_start`, so each block's address is
derived), the free list as header addresses with the head playing
`last_free` (the list is scanned newest-first via the `prev` pointers),
and `alloc_max`. -/
structure Heap where
  start : Nat
  blocks : List Block
  fl : List Nat
  maxAddr : Nat
deriving DecidableEq, Repr

/-- The high-water mark `alloc_end`: the first address past the blocks. -/
def allocEnd (h : Heap) : Nat := h.start + (h.blocks.map fullSize).sum

/-- The block whose header lies at address `a`, walking the arena from
address `cur`. -/
def blockAt (a : Nat) : Nat → List Block → Option Block
  | _, [] => none
  | cur, b :: bs => if cur = a then some b else blockAt a (cur + fullSize b) bs

/-- The body of `free_block` (src/src/mem/kmalloc.c:125-165) on the block
list, walking from address `cur` to the header at `tgt`. Returns the new
block list, whether the block was pushed on the free list (it is not when
it merges into a free predecessor, which is already listed), and the
header address of a free successor that was absorbed (and must be
unlinked). `none` when no block starts at `tgt` (the C code would then
reinterpret arbitrary memory; reachable calls always target a block). -/
def freeGo (tgt : Nat) : Nat → List Block → Option (List Block × Bool × Option Nat)
  | _, [] => none
  | cur, [c] =>
    if cur = tgt then some ([{ size := c.size, free := true }], true, none)
    else none
  | cur, c :: n :: rest =>
    if cur = tgt then
      -- no free predecessor here: either tgt = alloc_start or the caller
      -- walked past a non-free predecessor
      if n.free then
        some ({ size := c.size + fullSize n, free := true } :: rest,
          true, some (cur + fullSize c))
      else some ({ size := c.size, free := true } :: n :: rest, true, none)
    else if cur + fullSize c = tgt ∧ c.free then
      -- the previous block (found via the footer) is free: grow it over
      -- the freed block, then check the successor
      match rest with
      | m :: rest2 =>
        if m.free then
          some ({ size := c.size + fullSize n + fullSize m, free := true } :: rest2,
            false, some (tgt + fullSize n))
        else
          some ({ size := c.size + fullSize n, free := true } :: m :: rest2,
            false, none)
      | [] => some ([{ size := c.size + fullSize n, free := true }], false, none)
    else
      (freeGo tgt (cur + fullSize c) (n :: rest)).map fun r =>
        (c :: r.1, r.2.1, r.2.2)

/-- Embedding of `free_block` with `check_next = true` (its value at every
call site). Updates the block list and the free list: a block that did not
merge into its predecessor is pushed (becoming `last_free`); an absorbed
free successor is unlinked. -/
def free_block (h : Heap) (a : Nat) : Heap :=
  match freeGo a h.start h.blocks with
  | none => h
  | some r =>
    let fl1 := if r.2.1 then a :: h.fl else h.fl
    let fl2 := match r.2.2 with
      | some na => fl1.erase na
      | none => fl1
    { h with blocks := r.1, fl := fl2 }

/-- The body of `split_block` (src/src/mem/kmalloc.c:167-179) on the block
list: carve content size `sz` out of the block at `tgt`, leaving the
remainder as a following block whose header/footer are written but whose
type field is not initialized (every caller assigns it before reading; the
model uses `false` for the uninitialized field). `none` when the block is
too small to split. -/
def splitGo (tgt sz : Nat) : Nat → List Block → Option (List Block)
  | _, [] => none
  | cur, c :: rest =>
    if cur = tgt then
      if c.size < sz + HDR + FTR + MINSZ then none
      else some ({ size := sz, free := c.free } ::
        { size := c.size - sz - HDR - FTR, free := false } :: rest)
    else (splitGo tgt sz (cur + fullSize c) rest).map (c :: ·)

/-- Embedding of `split_block`: `none` mirrors the `NULL` return. -/
def split_block (h : Heap) (a sz : Nat) : Option Heap :=
  (splitGo a sz h.start h.blocks).map fun bs => { h with blocks := bs }

/-- Assignment of a block's `type` field (`TYPE_USED` = `false`,
`TYPE_FREE` = `true`). -/
def setTypeGo (tgt : Nat) (fr : Bool) : Nat → List Block → List Block
  | _, [] => []
  | cur, c :: rest =>
    if cur = tgt then { size := c.size, free := fr } :: rest
    else c :: setTypeGo tgt fr (cur + fullSize c) rest

/-- Set the type field of the block at header address `a`. -/
def setType (h : Heap) (a : Nat) (fr : Bool) : Heap :=
  { h with blocks := setTypeGo a fr h.start h.blocks }

/-- Embedding of `get_alignment_offset` (src/src/mem/kmalloc.c:181-199).
`VMEM_ALIGN` (mem/vmem.h of the current tree, not in the source snapshot)
is modelled from the spec as align-up-to-page. If the content address is
not page aligned, the offset to the next boundary is used, padded by one
page when it cannot hold the metadata of the offset block (`< 0x100`). -/
def get_alignment_offset (a : Nat) : Nat :=
  let content_addr := a + HDR
  if content_addr % PAGE_SIZE ≠ 0 then
    let offset := PAGE_SIZE - content_addr % PAGE_SIZE
    if offset < 0x100 then offset + PAGE_SIZE else offset
  else 0

/-- The free-list scan of `get_free_block` (src/src/mem/kmalloc.c:201-254)
over the candidate addresses (newest first). A candidate whose block is
not `TYPE_FREE` is skipped with a log message. For an aligned request the
needed size grows by the candidate's alignment offset plus header and
footer. A fitting block is unlinked; a chunk of `sz + alignment_offset` is
carved out of it by `split_block`, and when the split happened the
candidate is marked `TYPE_USED` before the remainder is freed (preventing
an immediate re-merge). Returns the candidate's header address. -/
def gfbScan (h : Heap) (sz : Nat) (align : Bool) :
    List Nat → Option (Nat × Heap)
  | [] => none
  | a :: rest =>
    match blockAt a h.start h.blocks with
    | none => gfbScan h sz align rest
    | some b =>
      if !b.free then gfbScan h sz align rest
      else
        if b.size ≥
            (if align then
              sz + get_alignment_offset a + HDR + FTR else sz) then
          match split_block { h with fl := h.fl.erase a } a
              (sz + (if align then get_alignment_offset a else 0)) with
          | some h2 =>
            some (a, free_block (setType h2 a false)
              (a + (sz + (if align then get_alignment_offset a else 0)) +
                HDR + FTR))
          | none => some (a, { h with fl := h.fl.erase a })
        else gfbScan h sz align rest

/-- Embedding of `get_free_block`: scan the free list from `last_free`
backwards. -/
def get_free_block (h : Heap) (sz : Nat) (align : Bool) : Option (Nat × Heap) :=
  gfbScan h sz align h.fl

/-- The tail of `_kmalloc` (src/src/mem/kmalloc.c:309-336) shared by both
allocation paths: for an aligned request with a nonzero offset, split the
offset region off the front of the block at `a`, mark the carved block
`TYPE_USED`, free the offset block, and return the carved block's content;
otherwise mark the block at `a` used and return its content. `none` models
the null-pointer dereference the C code would perform if the split failed
(no reachable call does). -/
def kmallocFinish (h : Heap) (a alignment_offset : Nat) (align : Bool) :
    Option (Nat × Heap) :=
  if align ∧ alignment_offset ≠ 0 then
    match split_block h a (alignment_offset - HDR - FTR) with
    | none => none
    | some h2 =>
      some (a + alignment_offset + HDR,
        setType (free_block (setType h2 (a + alignment_offset) false) a)
          (a + alignment_offset) false)
  else some (a + HDR, setType h a false)

/-- The request rounding of `_kmalloc` (src/src/mem/kmalloc.c:269-271):
a size below `sizeof(struct free_block)` is raised to it. -/
def roundSz (sz : Nat) : Nat := if sz < MINSZ then MINSZ else sz

/-- The `set_block(sz_needed, (struct mem_block*)alloc_end)` step of
`_kmalloc` (src/src/mem/kmalloc.c:301-306): for an aligned request with a
nonzero alignment offset the content size grows by
`get_alignment_offset(alloc_end)`; the type field is not written until
line 320 (modelled `TYPE_USED`, and never read before being assigned). -/
def freshBlock (h : Heap) (sz : Nat) (align : Bool) : Block :=
  { size := if align ∧
        (if align then get_alignment_offset (allocEnd h) else 0) ≠ 0 then
      sz + get_alignment_offset (allocEnd h)
    else sz,
    free := false }

/-- Embedding of `_kmalloc` (src/src/mem/kmalloc.c:256-337) minus
debugging and the spin lock (the model is sequential; a lock timeout and
the not-ready panic are outside it). The request is rounded up to the
minimum free-block size; a free-list hit is used, else a block is carved
from `alloc_end` (`none` models the out-of-memory panic). Returns the
content address and the heap afterwards. -/
def _kmalloc (h : Heap) (sz0 : Nat) (align : Bool) : Option (Nat × Heap) :=
  match get_free_block h (roundSz sz0) align with
  | some r =>
    kmallocFinish r.2 r.1
      (if align then get_alignment_offset r.1 else 0) align
  | none =>
    if allocEnd h + roundSz sz0 ≥ h.maxAddr then none
    else
      kmallocFinish
        { h with blocks := h.blocks ++ [freshBlock h (roundSz sz0) align] }
        (allocEnd h)
        (if align then get_alignment_offset (allocEnd h) else 0)
        align

/-- Embedding of `_kfree` (src/src/mem/kmalloc.c:339-371): a null pointer,
a header below `alloc_start`, a pointer at or past `alloc_end`, or an
already-free block is refused; otherwise the block is freed with
coalescing. The model is only defined at content addresses of actual
blocks (`blockAt` fails elsewhere; the C code would reinterpret whatever
bytes sit there). -/
def _kfree (h : Heap) (ptr : Nat) : Heap :=
  if ptr < HDR then h
  else
    match blockAt (ptr - HDR) h.start h.blocks with
    | none => h
    | some b =>
      if ptr - HDR < h.start ∨ ptr ≥ allocEnd h ∨ b.free then h
      else free_block h (ptr - HDR)

/-- A heap operation of a trace. -/
inductive KOp : Type where
  | malloc : Nat → Bool → KOp
  | mfree : Nat → KOp
deriving DecidableEq, Repr

/-- One step of a heap trace; an unsuccessful `_kmalloc` (out-of-memory
panic or lock failure) aborts the trace. -/
def kStep (h : Heap) : KOp → Option Heap
  | KOp.malloc sz align => (_kmalloc h sz align).map (·.2)
  | KOp.mfree ptr => some (_kfree h ptr)

/-- Run a heap trace from a freshly initialized arena
(`alloc_start = alloc_end`, empty free list, as set up by `kmalloc_init`). -/
def kRun (start maxAddr : Nat) (ops : List KOp) : Option Heap :=
  ops.foldlM kStep { start := start, blocks := [], fl := [], maxAddr := maxAddr }

/-- No two physically adjacent arena blocks are both `TYPE_FREE`. -/
def noAdjFree : List Block → Bool
  | b1 :: b2 :: rest => (!(b1.free && b2.free)) && noAdjFree (b2 :: rest)
  | _ => true

/-- The free flag of the first block of an arena suffix (`false` when the
suffix is empty); used to reason about adjacency across operations. -/
def headFree : List Block → Bool
  | [] => false
  | b :: _ => b.free

end Kmalloc

/- ====================================================================
   Concrete inputs used by witnesses and counterexamples
   ==================================================================== -/

/-- A superblock with valid magic, clean state and a nonzero incompatible
feature set. -/
def sbIncompat : Ext2.Superblock :=
  { block_count := 100, blocks_per_group := 100, inodes_per_group := 100,
    magic := 0xEF53, state := 1, inode_size := 128, features_compat := 0,
    features_incompat := 1, block_size := 0 }

/-- A superblock with an invalid magic number. -/
def sbBadMagic : Ext2.Superblock :=
  { block_count := 100, blocks_per_group := 100, inodes_per_group := 100,
    magic := 0x1234, state := 1, inode_size := 128, features_compat := 0,
    features_incompat := 0, block_size := 0 }

/-- The ext2 global state before initialization. -/
def ext2St0 : Ext2.Ext2State :=
  { superblock := none, blockgroup_table_installed := false,
    root_inode_installed := false, mount_registered := false }

/-- An inode with fifteen distinct nonzero block pointers, for the
block-resolution witness. -/
def inodeW : Ext2.Inode :=
  { mode_isRegularFile := true, size := 0,
    blocks := [21, 22, 23, 24, 25, 26, 27, 28, 29, 30, 31, 32, 33, 34, 35] }

/-- A table oracle that encodes which table and index were consulted. -/
def tblW : Nat → Nat → Nat := fun t i => t * 1000 + i + 1

/-- A task whose binary path, entry, sbrk and cpu state carry markers. -/
def task0 : Elf.Task :=
  { cwd := "/", binary_path := "/sbin/init", entry := 7, sbrk := 9,
    mem := [], cpu := 3, interp := none }

/-- The path of a file whose first 16 bytes are all zero. -/
def badElfPath : String := "/bad"

/-- A filesystem holding one 16-byte all-zero file at `badElfPath`. -/
def fsBadElf : String → Option (List Nat) :=
  fun p => if p = badElfPath then some (List.replicate 16 0) else none

/-- A `read_pheads` stand-in that succeeds without touching the task (it
is never reached in the bad-magic scenarios). -/
def rpId : Elf.Task → List Nat → Bool → Int × Elf.Task := fun t _ _ => (0, t)

/-- A destination context for `vmap` with page 0 allocated. -/
def vmapDst0 : Valloc.Ctx := { bitmap := [true, false, false], ranges := [] }

/-- A sharded source range (`phys == NULL`) covering page 1. -/
def vmapRange0 : Valloc.VRange :=
  { addr := 4096, size := 4096, phys := none, user := false }

/-- A source context owning the sharded range `vmapRange0`. -/
def vmapSrc0 : Valloc.Ctx :=
  { bitmap := [true, true], ranges := [vmapRange0] }

/-- `vmapDst0` after `alloc_virt` has taken page 1 for the mapping. -/
def vmapDst1 : Valloc.Ctx := { bitmap := [true, true, false], ranges := [] }

/-- A pipe trace: write `[1,2,3]`, read 2 bytes, write `[4,5]`, read the
rest. -/
def pipeOpsW : List Pipe.PipeOp :=
  [Pipe.PipeOp.wr [1, 2, 3], Pipe.PipeOp.rd 2, Pipe.PipeOp.wr [4, 5],
   Pipe.PipeOp.rd 10]

/-- The state `pipeOpsW` ends in. -/
def pipeStW : Pipe.TraceState :=
  { buf := [], written := [1, 2, 3, 4, 5], readOut := [1, 2, 3, 4, 5] }

/-- A regular 5-byte file whose direct block pointers are all 5. -/
def inodeR : Ext2.Inode :=
  { mode_isRegularFile := true, size := 5, blocks := List.replicate 15 5 }

/-- A block-read oracle returning a constant 1024-byte block. -/
def rbW : Nat → Option (List Nat) := fun _ => some (List.replicate 1024 7)

/-- A freshly initialized kernel-heap arena. -/
def kHeapInit : Kmalloc.Heap :=
  { start := 0, blocks := [], fl := [], maxAddr := 100000 }

/-- A heap trace: two allocations followed by freeing both. -/
def kOpsW : List Kmalloc.KOp :=
  [Kmalloc.KOp.malloc 16 false, Kmalloc.KOp.malloc 16 false,
   Kmalloc.KOp.mfree 8, Kmalloc.KOp.mfree 36]

/-- The arena `kOpsW` ends in: one fully coalesced free block. -/
def kHeapW : Kmalloc.Heap :=
  { start := 0, blocks := [{ size := 44, free := true }], fl := [0],
    maxAddr := 100000 }

/-- The arena after one aligned 16-byte allocation from a fresh heap. -/
def kHeapAligned : Kmalloc.Heap :=
  { start := 0,
    blocks := [{ size := 4076, free := true }, { size := 16, free := false }],
    fl := [0], maxAddr := 100000 }

/- ====================================================================
   Theorems
   ==================================================================== -/

/-- C7: with the 1024-byte block constants hard-coded in
`read_inode_block`, logical block `b < 12` resolves through the direct
pointer `inode.blocks[b]`; block 12 resolves through entry 0 of the table
at `inode.blocks[12]`; block 267 through entry 255 of that table; block
268 through the double-indirect path `inode.blocks[13]` at indices
`(0, 0)`; and `read_inode_block` reads exactly the disk block so
resolved. -/
theorem ext2_block_resolution (sb : Ext2.Superblock) (tbl : Nat → Nat → Nat)
    (readBlock : Nat → Option (List Nat)) (inode : Ext2.Inode) (b : Nat)
    (hb : b < 12) :
    Ext2.resolve_block tbl inode b = inode.blocks.getD b 0 ∧
    Ext2.resolve_block tbl inode 12 = tbl (inode.blocks.getD 12 0) 0 ∧
    Ext2.resolve_block tbl inode 267 = tbl (inode.blocks.getD 12 0) 255 ∧
    Ext2.resolve_block tbl inode 268 =
      tbl (tbl (inode.blocks.getD 13 0) 0) 0 ∧
    (∀ b', b' ≤ sb.block_count → Ext2.resolve_block tbl inode b' ≠ 0 →
      Ext2.read_inode_block sb tbl readBlock inode b' =
        readBlock (Ext2.resolve_block tbl inode b')) := by
  refine ⟨?_, ?_, ?_, ?_, ?_⟩
  · unfold Ext2.resolve_block
    rw [if_neg (by omega), if_neg (by omega)]
  · unfold Ext2.resolve_block
    rw [if_pos (by omega)]
  · unfold Ext2.resolve_block
    rw [if_pos (by omega)]
  · unfold Ext2.resolve_block
    rw [if_neg (by omega), if_pos (by omega)]
  · intro b' hle hne
    unfold Ext2.read_inode_block
    rw [if_neg (by omega), if_neg hne]

/-- C7 witness: the resolution equations instantiated at a concrete
superblock, inode, table oracle and logical block 5. -/
theorem ext2_block_resolution_witness :
    (5 : Nat) < 12 ∧
    (Ext2.resolve_block tblW inodeW 5 = inodeW.blocks.getD 5 0 ∧
     Ext2.resolve_block tblW inodeW 12 = tblW (inodeW.blocks.getD 12 0) 0 ∧
     Ext2.resolve_block tblW inodeW 267 = tblW (inodeW.blocks.getD 12 0) 255 ∧
     Ext2.resolve_block tblW inodeW 268 =
       tblW (tblW (inodeW.blocks.getD 13 0) 0) 0 ∧
     (∀ b', b' ≤ sbIncompat.block_count →
        Ext2.resolve_block tblW inodeW b' ≠ 0 →
        Ext2.read_inode_block sbIncompat tblW (fun _ => some []) inodeW b' =
          (fun _ => some ([] : List Nat))
            (Ext2.resolve_block tblW inodeW b'))) :=
  ⟨by decide,
   ext2_block_resolution sbIncompat tblW (fun _ => some []) inodeW 5 (by decide)⟩

/-- C9: the dispatcher drops a dispatch that arrives while the
re-entrancy flag is set (no handler runs, the flag is untouched), and a
top-level dispatch runs at most one registered handler at any moment and
restores the flag. -/
theorem interrupt_dispatch_not_nested (hnd : Nat → Bool)
    (t : Interrupts.IntTree) :
    (Interrupts.interrupt_callback hnd true t).2 = 0 ∧
    (Interrupts.interrupt_callback hnd true t).1 = true ∧
    (Interrupts.interrupt_callback hnd false t).2 ≤ 1 ∧
    (Interrupts.interrupt_callback hnd false t).1 = false := by
  have hdrop : ∀ t', Interrupts.interrupt_callback hnd true t' = (true, 0) := by
    intro t'
    cases t' with
    | node vec nested => simp [Interrupts.interrupt_callback]
  have hlist : ∀ ts, Interrupts.dispatchList hnd true ts = (true, 0) := by
    intro ts
    induction ts with
    | nil => simp [Interrupts.dispatchList]
    | cons t' ts ih => simp [Interrupts.dispatchList, hdrop, ih]
  refine ⟨by rw [hdrop], by rw [hdrop], ?_, ?_⟩
  · cases t with
    | node vec nested =>
      by_cases hv : hnd vec
      · simp [Interrupts.interrupt_callback, hv, hlist]
      · simp [Interrupts.interrupt_callback, hv]
  · cases t with
    | node vec nested => simp [Interrupts.interrupt_callback]

/-- C8 counterexample: on an all-set bitmap the claimed behaviour is a
failed allocation, but the embedded `frames_allocateFrame` returns
normally with frame number 0 and an unchanged bitmap — the very result a
successful allocation of frame 0 out of a bitmap with bit 0 clear also
produces, so no failure reaches the caller. -/
theorem frames_oom_counterexample :
    Frames.alloc_frame_claimed [true, true] = none ∧
    Frames.frames_allocateFrame [true, true] =
      { frame := 0, bitmap := [true, true], oomLogged := true } ∧
    (Frames.frames_allocateFrame [false, true]).frame = 0 := by decide

/-- C8 (amended): `frames_allocateFrame` returns the smallest clear frame
and sets its bit; when every bit is set it prints the out-of-memory
message and leaves the bitmap unchanged, but still returns frame number 0
rather than failing. -/
theorem frames_allocateFrame_spec (bm : List Bool) :
    (∀ i, bm.findIdx? (fun b => !b) = some i →
      (Frames.frames_allocateFrame bm).frame = i ∧
      (Frames.frames_allocateFrame bm).bitmap = bm.set i true ∧
      ∀ j, j < i → bm.getD j false = true) ∧
    (bm.findIdx? (fun b => !b) = none →
      Frames.frames_allocateFrame bm =
        { frame := 0, bitmap := bm, oomLogged := bm.getD 0 false }) := by
  constructor
  · intro i hi
    refine ⟨?_, ?_, ?_⟩
    · simp [Frames.frames_allocateFrame, Frames.bitmap_findFirstClearedBit, hi]
    · simp [Frames.frames_allocateFrame, Frames.bitmap_findFirstClearedBit,
        Frames.bitmap_set, hi]
    · intro j hj
      induction bm generalizing i j with
      | nil => simp [List.findIdx?] at hi
      | cons b rest ih =>
        rw [List.findIdx?_cons] at hi
        by_cases hb : (!b) = true
        · simp [hb] at hi
          omega
        · simp [hb] at hi
          obtain ⟨i', hi', rfl⟩ := hi
          cases j with
          | zero => simpa using hb
          | succ j' =>
            simpa using ih i' hi' j' (by omega)
  · intro hn
    have hall : ∀ j, j < bm.length → bm.getD j false = true := by
      intro j hj
      induction bm generalizing j with
      | nil => simp at hj
      | cons b rest ih =>
        rw [List.findIdx?_cons] at hn
        by_cases hb : (!b) = true
        · simp [hb] at hn
        · rw [if_neg hb, List.findIdx?_succ, Option.map_eq_none'] at hn
          cases j with
          | zero => simpa using hb
          | succ j' => simpa using ih hn j' (by simpa using hj)
    have hset : bm.set 0 true = bm := by
      cases bm with
      | nil => rfl
      | cons b rest =>
        have := hall 0 (by simp)
        simp at this
        simp [this]
    have hfind : Frames.bitmap_findFirstClearedBit bm = 0 := by
      simp [Frames.bitmap_findFirstClearedBit, hn]
    simp [Frames.frames_allocateFrame, hfind, Frames.bitmap_set, hset,
      Frames.bitmap_get]

/-- C8 witness: the amended behaviour instantiated on the bitmap
`[true, false]`, whose first clear bit is 1. -/
theorem frames_allocateFrame_spec_witness :
    List.findIdx? (fun b => !b) [true, false] = some 1 ∧
    (Frames.frames_allocateFrame [true, false]).frame = 1 ∧
    (Frames.frames_allocateFrame [true, false]).bitmap =
      [true, false].set 1 true :=
  ⟨by decide,
   ((frames_allocateFrame_spec [true, false]).1 1 (by decide)).1,
   ((frames_allocateFrame_spec [true, false]).1 1 (by decide)).2.1⟩

/-- C1 counterexample: a superblock with valid magic, clean state and
`features_incompat = 1` is mounted by `ext2_init` — the incompatible
feature flags do not abort initialization (the `return` in that branch is
commented out in the source). -/
theorem ext2_init_incompat_counterexample :
    sbIncompat.features_incompat ≠ 0 ∧
    (Ext2.ext2_init sbIncompat true true ext2St0).2 =
      Ext2.InitOutcome.mounted ∧
    (Ext2.ext2_init sbIncompat true true ext2St0).1.mount_registered = true := by
  decide

/-- C1 (amended): `ext2_init` mounts exactly when the magic is `0xEF53`,
the state is `CLEAN` and both follow-up disk reads succeed — a nonzero
`features_incompat` only logs a warning; on a magic or state abort no
mount is registered and the blockgroup table and root inode are not
installed, but the global superblock pointer does retain the superblock
that was read. -/
theorem ext2_init_checks (sb : Ext2.Superblock) (bg rt : Bool)
    (st : Ext2.Ext2State) :
    ((Ext2.ext2_init sb bg rt st).2 = Ext2.InitOutcome.mounted ↔
      (sb.magic = Ext2.SUPERBLOCK_MAGIC ∧
       sb.state = Ext2.SUPERBLOCK_STATE_CLEAN ∧ bg = true ∧ rt = true)) ∧
    ((Ext2.ext2_init sb bg rt st).1.mount_registered = true ↔
      (st.mount_registered = true ∨
        (sb.magic = Ext2.SUPERBLOCK_MAGIC ∧
         sb.state = Ext2.SUPERBLOCK_STATE_CLEAN ∧ bg = true ∧ rt = true))) ∧
    (sb.magic ≠ Ext2.SUPERBLOCK_MAGIC ∨
        sb.state ≠ Ext2.SUPERBLOCK_STATE_CLEAN →
      (Ext2.ext2_init sb bg rt st).1.blockgroup_table_installed =
        st.blockgroup_table_installed ∧
      (Ext2.ext2_init sb bg rt st).1.root_inode_installed =
        st.root_inode_installed ∧
      (Ext2.ext2_init sb bg rt st).1.mount_registered =
        st.mount_registered ∧
      (Ext2.ext2_init sb bg rt st).1.superblock = some sb) := by
  unfold Ext2.ext2_init
  by_cases hm : sb.magic = Ext2.SUPERBLOCK_MAGIC
  · by_cases hs : sb.state = Ext2.SUPERBLOCK_STATE_CLEAN
    · cases bg with
      | false => simp [hm, hs]
      | true =>
        cases rt with
        | false => simp [hm, hs]
        | true => simp [hm, hs]
    · simp [hm, hs]
  · simp [hm]

/-- C1 witness: the amended statement instantiated at a bad-magic
superblock, showing the abort leaves no mount while the superblock global
is populated. -/
theorem ext2_init_checks_witness :
    ((Ext2.ext2_init sbBadMagic true true ext2St0).2 =
        Ext2.InitOutcome.mounted ↔
      (sbBadMagic.magic = Ext2.SUPERBLOCK_MAGIC ∧
       sbBadMagic.state = Ext2.SUPERBLOCK_STATE_CLEAN ∧
       true = true ∧ true = true)) ∧
    (Ext2.ext2_init sbBadMagic true true ext2St0).1.mount_registered =
      ext2St0.mount_registered ∧
    (Ext2.ext2_init sbBadMagic true true ext2St0).1.superblock =
      some sbBadMagic :=
  ⟨(ext2_init_checks sbBadMagic true true ext2St0).1,
   ((ext2_init_checks sbBadMagic true true ext2St0).2.2
      (by left; decide)).2.2.1,
   ((ext2_init_checks sbBadMagic true true ext2St0).2.2
      (by left; decide)).2.2.2⟩

/-- Helper: `load_file` on a file whose first 16 bytes differ from the ELF
magic fails before touching the task. A file shorter than the 52-byte ELF
header also fails (its 16-byte prefix cannot equal the magic either). -/
theorem load_file_bad_magic (rp : Elf.Task → List Nat → Bool → Int × Elf.Task)
    (fs : String → Option (List Nat)) (t : Elf.Task) (path : String)
    (is_main : Bool) (file : List Nat) (hfile : fs path = some file)
    (hmagic : file.take 16 ≠ Elf.elf_magic) :
    Elf.load_file rp fs t path is_main = (-1, t) := by
  unfold Elf.load_file
  rw [hfile]
  by_cases h52 : file.length < 52
  · simp [h52]
  · simp [h52, hmagic]

/-- C4 counterexample: loading a file whose first 16 bytes are all zero
does fail with `ENOEXEC`, but the task is mutated: `task->binary_path`
has been overwritten with the normalized path before the magic check. -/
theorem elf_load_file_mutates_binary_path :
    (Elf.elf_load_file rpId id fsBadElf task0 badElfPath).ret = -1 ∧
    (Elf.elf_load_file rpId id fsBadElf task0 badElfPath).errno =
      some Elf.Errno.ENOEXEC ∧
    (Elf.elf_load_file rpId id fsBadElf task0 badElfPath).task.binary_path ≠
      task0.binary_path := by decide

/-- C4 (amended): for every task and path whose file's first 16 bytes
differ from the fixed ELF magic, `elf_load_file` returns `-1` with
`sc_errno = ENOEXEC` and leaves the task's memory regions, entry, sbrk
and cpu state unchanged — but `task->binary_path` is overwritten with the
normalized path by the `strncpy` that runs before validation. -/
theorem elf_load_file_bad_magic
    (rp : Elf.Task → List Nat → Bool → Int × Elf.Task)
    (ss : Elf.Task → Elf.Task) (fs : String → Option (List Nat))
    (t : Elf.Task) (path : String) (file : List Nat)
    (hfile : fs (Elf.vfs_normalize_path path t.cwd) = some file)
    (hmagic : file.take 16 ≠ Elf.elf_magic) :
    Elf.elf_load_file rp ss fs t path =
      { ret := -1, errno := some Elf.Errno.ENOEXEC,
        task := { t with
          binary_path := Elf.vfs_normalize_path path t.cwd } } := by
  have hload := load_file_bad_magic rp fs
    { t with binary_path := Elf.vfs_normalize_path path t.cwd }
    (Elf.vfs_normalize_path path t.cwd) true file hfile hmagic
  simp only [Elf.elf_load_file, hload]
  norm_num

/-- C4 witness: the amended statement instantiated at `task0` and the
all-zero 16-byte file behind `badElfPath`. -/
theorem elf_load_file_bad_magic_witness :
    fsBadElf (Elf.vfs_normalize_path badElfPath task0.cwd) =
      some (List.replicate 16 0) ∧
    (List.replicate 16 0).take 16 ≠ Elf.elf_magic ∧
    Elf.elf_load_file rpId id fsBadElf task0 badElfPath =
      { ret := -1, errno := some Elf.Errno.ENOEXEC,
        task := { task0 with
          binary_path := Elf.vfs_normalize_path badElfPath task0.cwd } } :=
  ⟨by decide, by decide,
   elf_load_file_bad_magic rpId id fsBadElf task0 badElfPath
     (List.replicate 16 0) (by decide) (by decide)⟩

/-- Helper: a successful `bitmap_find` returns an in-range position whose
first bit is clear. -/
theorem bitmap_find_clear (bm : List Bool) (k p : Nat) (hk : 0 < k)
    (h : Valloc.bitmap_find bm k = some p) :
    p < bm.length ∧ bm.getD p false = false := by
  unfold Valloc.bitmap_find at h
  have hmem := List.mem_of_find?_eq_some h
  have hprop := List.find?_some h
  rw [List.mem_range] at hmem
  refine ⟨hmem, ?_⟩
  rw [Bool.and_eq_true] at hprop
  have hall := hprop.2
  rw [List.all_eq_true] at hall
  have h0 := hall 0 (by rw [List.mem_range]; omega)
  simpa using h0

/-- Helper: `bitmap_set_range` keeps the bitmap length. -/
theorem bitmap_set_range_length (bm : List Bool) (start count : Nat) :
    (Valloc.bitmap_set_range bm start count).length = bm.length := by
  unfold Valloc.bitmap_set_range
  induction count with
  | zero => simp
  | succ n ih =>
    rw [List.range_succ, List.foldl_append]
    simp [ih]

/-- Helper: setting a nonempty run of bits sets the first bit of the run. -/
theorem bitmap_set_range_getD (bm : List Bool) (start count : Nat)
    (hc : 0 < count) (hlen : start < bm.length) :
    (Valloc.bitmap_set_range bm start count).getD start false = true := by
  induction count with
  | zero => omega
  | succ n ih =>
    unfold Valloc.bitmap_set_range
    rw [List.range_succ, List.foldl_append]
    rcases Nat.eq_zero_or_pos n with hn | hn
    · subst hn
      simp [Valloc.bitmap_set_range, List.getD_eq_getElem?_getD,
        List.getElem?_set_self', hlen]
    · have hlen' : start <
          (Valloc.bitmap_set_range bm start n).length := by
        rw [bitmap_set_range_length]; exact hlen
      have hne : start + n ≠ start := by omega
      rw [show (List.foldl (fun b j => b.set (start + j) true)
          bm (List.range n)) = Valloc.bitmap_set_range bm start n from rfl]
      rw [List.foldl_cons, List.foldl_nil, List.getD_eq_getElem?_getD,
        List.getElem?_set_ne hne, ← List.getD_eq_getElem?_getD]
      exact ih hn

/-- C3 (amended): when the source range enclosing the first source page
exists but is sharded (`phys == NULL`), `vmap` does not return an error to
its caller — it panics, and at the moment of the panic the destination
context's VA bitmap has already been modified by `alloc_virt`. -/
theorem vmap_sharded_panics (dst src : Valloc.Ctx) (src_addr size : Nat)
    (u w : Bool) (virt : Nat) (dst' : Valloc.Ctx) (r : Valloc.VRange)
    (halloc : Valloc.alloc_virt dst
        ((size + src_addr % Valloc.PAGE_SIZE + Valloc.PAGE_SIZE - 1) /
          Valloc.PAGE_SIZE) = some (virt, dst'))
    (hr : Valloc.get_range src
        (src_addr / Valloc.PAGE_SIZE * Valloc.PAGE_SIZE) = some r)
    (hphys : r.phys = none) (hsz : 0 < size) :
    Valloc.vmap dst src src_addr size u w = Valloc.VmapResult.panicked dst' ∧
    dst'.bitmap ≠ dst.bitmap := by
  have hsp : 0 < (size + src_addr % Valloc.PAGE_SIZE + Valloc.PAGE_SIZE - 1) /
      Valloc.PAGE_SIZE := by
    have hle : Valloc.PAGE_SIZE ≤
        size + src_addr % Valloc.PAGE_SIZE + Valloc.PAGE_SIZE - 1 := by
      unfold Valloc.PAGE_SIZE
      omega
    exact (Nat.one_le_div_iff (by decide)).mpr hle
  constructor
  · have hm : max ((size + src_addr % Valloc.PAGE_SIZE + Valloc.PAGE_SIZE - 1) /
        Valloc.PAGE_SIZE) 1 =
        (max ((size + src_addr % Valloc.PAGE_SIZE + Valloc.PAGE_SIZE - 1) /
          Valloc.PAGE_SIZE) 1 - 1) + 1 := by omega
    simp only [Valloc.vmap, halloc]
    rw [hm, List.range_succ_eq_map]
    unfold Valloc.vmapLoop
    simp only [Nat.zero_mul, Nat.add_zero, hr, hphys]
    rfl
  · unfold Valloc.alloc_virt at halloc
    cases hf : Valloc.bitmap_find dst.bitmap
        ((size + src_addr % Valloc.PAGE_SIZE + Valloc.PAGE_SIZE - 1) /
          Valloc.PAGE_SIZE) with
    | none => rw [hf] at halloc; simp at halloc
    | some q =>
      rw [hf] at halloc
      simp only [Option.some.injEq, Prod.mk.injEq] at halloc
      obtain ⟨hvirt, hdst⟩ := halloc
      obtain ⟨hq1, hq2⟩ := bitmap_find_clear dst.bitmap _ q hsp hf
      intro hbm
      have hset := bitmap_set_range_getD dst.bitmap q
        ((size + src_addr % Valloc.PAGE_SIZE + Valloc.PAGE_SIZE - 1) /
          Valloc.PAGE_SIZE) hsp hq1
      rw [← hdst] at hbm
      have hbm' : Valloc.bitmap_set_range dst.bitmap q
          ((size + src_addr % Valloc.PAGE_SIZE + Valloc.PAGE_SIZE - 1) /
            Valloc.PAGE_SIZE) = dst.bitmap := hbm
      rw [hbm', hq2] at hset
      exact Bool.false_ne_true hset

/-- C3 counterexample: on a source region backed by a shard list, `vmap`
does not fail by returning an error with the destination unchanged — it
panics, and the destination context it holds at that point differs from
the one passed in (its VA bitmap bit for the new mapping is already
set). -/
theorem vmap_sharded_counterexample :
    Valloc.vmap vmapDst0 vmapSrc0 4096 4096 false false =
      Valloc.VmapResult.panicked vmapDst1 ∧
    vmapDst1 ≠ vmapDst0 := by decide

/-- C3 witness: the amended statement instantiated at the concrete
contexts `vmapDst0` and `vmapSrc0`. -/
theorem vmap_sharded_panics_witness :
    Valloc.get_range vmapSrc0
      (4096 / Valloc.PAGE_SIZE * Valloc.PAGE_SIZE) = some vmapRange0 ∧
    vmapRange0.phys = none ∧
    (Valloc.vmap vmapDst0 vmapSrc0 4096 4096 false false =
      Valloc.VmapResult.panicked vmapDst1 ∧
     vmapDst1.bitmap ≠ vmapDst0.bitmap) :=
  ⟨by decide, by decide,
   vmap_sharded_panics vmapDst0 vmapSrc0 4096 4096 false false 4096 vmapDst1
     vmapRange0 (by decide) (by decide) (by decide) (by decide)⟩

/-- Helper: along every completed pipe trace, the bytes written so far are
exactly the bytes read so far followed by the current buffer contents. -/
theorem pipe_trace_invariant (ops : List Pipe.PipeOp)
    (st0 st : Pipe.TraceState) (h0 : st0.written = st0.readOut ++ st0.buf)
    (h : List.foldlM Pipe.pipeStep st0 ops = some st) :
    st.written = st.readOut ++ st.buf := by
  induction ops generalizing st0 with
  | nil =>
    rw [List.foldlM_nil] at h
    cases h
    exact h0
  | cons op rest ih =>
    rw [List.foldlM_cons] at h
    cases hstep : Pipe.pipeStep st0 op with
    | none => rw [hstep] at h; exact absurd h (by simp)
    | some st1 =>
      rw [hstep] at h
      simp only [Option.bind_eq_bind, Option.some_bind] at h
      refine ih st1 ?_ h
      cases op with
      | wr d =>
        simp only [Pipe.pipeStep, Pipe.pipe_write] at hstep
        by_cases hcap : st0.buf.length + d.length > Pipe.PIPE_BUFFER_SIZE
        · rw [if_pos hcap] at hstep; exact absurd hstep (by simp)
        · rw [if_neg hcap] at hstep
          simp only [Option.map_some'] at hstep
          cases hstep
          simp [h0, List.append_assoc]
      | rd n =>
        simp only [Pipe.pipeStep, Pipe.pipe_read] at hstep
        by_cases hempty : st0.buf.length = 0
        · rw [if_pos hempty] at hstep; exact absurd hstep (by simp)
        · rw [if_neg hempty] at hstep
          simp only [Option.map_some'] at hstep
          cases hstep
          simp [h0, List.append_assoc]

/-- C2: for every interleaving of successful writes and completing reads
on one pipe, the concatenation of the bytes returned by the reads is a
prefix of the concatenation of the written byte strings (the buffer holds
the rest), and the two are equal as soon as the totals agree. -/
theorem pipe_fifo_order (ops : List Pipe.PipeOp) (st : Pipe.TraceState)
    (h : Pipe.runTrace ops = some st) :
    st.written = st.readOut ++ st.buf ∧
    (∃ rest, st.readOut ++ rest = st.written) ∧
    (st.readOut.length = st.written.length → st.readOut = st.written) := by
  have hinv := pipe_trace_invariant ops _ st (by simp) h
  refine ⟨hinv, ⟨st.buf, hinv.symm⟩, ?_⟩
  intro hlen
  have hbuf : st.buf.length = 0 := by
    have hlen2 := congrArg List.length hinv
    simp at hlen2
    omega
  rw [hinv, List.length_eq_zero.mp hbuf, List.append_nil]

/-- C2 witness: the FIFO property on the concrete trace `pipeOpsW`. -/
theorem pipe_fifo_order_witness :
    Pipe.runTrace pipeOpsW = some pipeStW ∧
    (pipeStW.written = pipeStW.readOut ++ pipeStW.buf ∧
     (∃ rest, pipeStW.readOut ++ rest = pipeStW.written) ∧
     (pipeStW.readOut.length = pipeStW.written.length →
       pipeStW.readOut = pipeStW.written)) :=
  ⟨by decide, pipe_fifo_order pipeOpsW pipeStW (by decide)⟩

/-- Helper: the ext2 block size is positive. -/
theorem blocksize_pos (sb : Ext2.Superblock) :
    0 < Ext2.superblock_to_blocksize sb := by
  unfold Ext2.superblock_to_blocksize
  rw [Nat.shiftLeft_eq]
  positivity

/-- Helper: when the first `n` logical blocks of an inode read
successfully as full blocks, `read_inode_blocks` yields their
concatenation: a stream of `n * block_size` bytes whose byte `i` is byte
`i % bs` of logical block `i / bs`. -/
theorem read_inode_blocks_spec (sb : Ext2.Superblock) (tbl : Nat → Nat → Nat)
    (readBlock : Nat → Option (List Nat)) (inode : Ext2.Inode) (n : Nat)
    (hread : ∀ i, i < n →
      ∃ blk, Ext2.read_inode_block sb tbl readBlock inode i = some blk ∧
        blk.length = Ext2.superblock_to_blocksize sb) :
    ∃ s, Ext2.read_inode_blocks sb tbl readBlock inode n = some s ∧
      s.length = n * Ext2.superblock_to_blocksize sb ∧
      ∀ i, i < n * Ext2.superblock_to_blocksize sb →
        s.getD i 0 = Ext2.inodeByte sb tbl readBlock inode i := by
  induction n with
  | zero =>
    refine ⟨[], rfl, by simp, ?_⟩
    intro i hi
    simp at hi
  | succ n ih =>
    obtain ⟨s, hs, hlen, hidx⟩ := ih (fun i hi => hread i (by omega))
    obtain ⟨blk, hblk, hblen⟩ := hread n (by omega)
    refine ⟨s ++ blk, ?_, ?_, ?_⟩
    · unfold Ext2.read_inode_blocks
      rw [hs, hblk]
      rfl
    · simp [hlen, hblen, Nat.succ_mul]
    · intro i hi
      by_cases hlt : i < n * Ext2.superblock_to_blocksize sb
      · rw [List.getD_append _ _ _ _ (by omega)]
        exact hidx i hlt
      · have hge : n * Ext2.superblock_to_blocksize sb ≤ i := by omega
        rw [List.getD_append_right _ _ _ _ (by omega)]
        have hrep : i = (i - n * Ext2.superblock_to_blocksize sb) +
            n * Ext2.superblock_to_blocksize sb := by omega
        have hsub : i - n * Ext2.superblock_to_blocksize sb <
            Ext2.superblock_to_blocksize sb := by
          have hmul : (n + 1) * Ext2.superblock_to_blocksize sb =
              n * Ext2.superblock_to_blocksize sb +
                Ext2.superblock_to_blocksize sb := by
            rw [Nat.add_mul, Nat.one_mul]
          omega
        have hdiv : i / Ext2.superblock_to_blocksize sb = n := by
          conv_lhs => rw [hrep]
          rw [Nat.add_mul_div_right _ _ (blocksize_pos sb),
            Nat.div_eq_of_lt hsub]
          omega
        have hmod : i % Ext2.superblock_to_blocksize sb =
            i - n * Ext2.superblock_to_blocksize sb := by
          conv_lhs => rw [hrep]
          rw [Nat.add_mul_mod_self_right, Nat.mod_eq_of_lt hsub]
        simp only [Ext2.inodeByte]
        rw [hdiv, hmod, hblk, hlen]
        simp

/-- C10: the bytes `ext2_read_file` copies into `dest` always come from
the start of the file: `dest[0 .. returned)` equals file bytes
`[0 .. returned)` no matter what `fp->offset` is — the offset only enters
the block-count computation `ceil((size + offset) / block_size)`, never
the copy position. -/
theorem ext2_read_copies_from_start (sb : Ext2.Superblock)
    (tbl : Nat → Nat → Nat) (readBlock : Nat → Option (List Nat))
    (inode : Ext2.Inode) (offset size0 : Nat)
    (hread : ∀ i, i * Ext2.superblock_to_blocksize sb < inode.size + offset →
      ∃ blk, Ext2.read_inode_block sb tbl readBlock inode i = some blk ∧
        blk.length = Ext2.superblock_to_blocksize sb) :
    (Ext2.ext2_read_file sb tbl readBlock inode offset size0).copied.length =
      (Ext2.ext2_read_file sb tbl readBlock inode offset size0).ret.toNat ∧
    ∀ i, i <
        (Ext2.ext2_read_file sb tbl readBlock inode offset size0).ret.toNat →
      (Ext2.ext2_read_file sb tbl readBlock inode offset
        size0).copied.getD i 0 =
        Ext2.inodeByte sb tbl readBlock inode i := by
  have hbs := blocksize_pos sb
  cases hmode : inode.mode_isRegularFile with
  | false =>
    refine ⟨?_, ?_⟩ <;> simp [Ext2.ext2_read_file, hmode]
  | true =>
    by_cases hsz : inode.size < 1
    · refine ⟨?_, ?_⟩ <;> simp [Ext2.ext2_read_file, hmode, hsz]
    · -- the main read path
      set bs := Ext2.superblock_to_blocksize sb with hbsdef
      set size := if size0 > inode.size then inode.size else size0 with hsize
      have hsle : size ≤ inode.size := by
        rw [hsize]
        split <;> omega
      set e := size + offset with he
      set num_blocks := e / bs + (if e % bs ≠ 0 then 1 else 0) with hnum
      have hib : ∀ i, i < num_blocks → i * bs < e := by
        intro i hi
        have hdm := Nat.div_add_mod e bs
        by_cases hrem : e % bs = 0
        · rw [hnum, hrem] at hi
          simp at hi
          have h1 : i + 1 ≤ e / bs := hi
          have h2 : (i + 1) * bs ≤ e / bs * bs :=
            Nat.mul_le_mul_right bs h1
          have h3 : e / bs * bs ≤ e := Nat.div_mul_le_self e bs
          have h4 : (i + 1) * bs = i * bs + bs := by ring
          omega
        · rw [hnum, if_pos hrem] at hi
          have h1 : i ≤ e / bs := by omega
          have h2 : i * bs ≤ e / bs * bs := Nat.mul_le_mul_right bs h1
          have h3 : e / bs * bs < e := by
            have h5 : bs * (e / bs) = e / bs * bs := Nat.mul_comm _ _
            omega
          omega
      have hcap : e ≤ num_blocks * bs := by
        have hdm := Nat.div_add_mod e bs
        by_cases hrem : e % bs = 0
        · rw [hnum, hrem]
          simp
          have : e / bs * bs = bs * (e / bs) := Nat.mul_comm _ _
          omega
        · rw [hnum, if_pos hrem]
          have hm : e % bs < bs := Nat.mod_lt e hbs
          have : (e / bs + 1) * bs = e / bs * bs + bs := by ring
          have h5 : bs * (e / bs) = e / bs * bs := Nat.mul_comm _ _
          omega
      obtain ⟨s, hs, hslen, hsidx⟩ :=
        read_inode_blocks_spec sb tbl readBlock inode num_blocks
          (fun i hi => hread i (by
            have := hib i hi
            omega))
      rw [← hbsdef] at hslen hsidx
      have hout : Ext2.ext2_read_file sb tbl readBlock inode offset size0 =
          { ret := (size : Int), copied := s.take size } := by
        unfold Ext2.ext2_read_file
        rw [if_neg (by simp [hmode]), if_neg (by omega)]
        simp only [← hsize, ← hbsdef, ← he, ← hnum, hs]
      rw [hout]
      have hstake : size ≤ s.length := by omega
      constructor
      · simp only [Int.toNat_ofNat, List.length_take]
        omega
      · intro i hi
        simp only [Int.toNat_ofNat] at hi
        have hgetd : (s.take size).getD i 0 = s.getD i 0 := by
          rw [List.getD_eq_getElem?_getD, List.getD_eq_getElem?_getD,
            List.getElem?_take, if_pos (by omega)]
        rw [hgetd]
        exact hsidx i (by omega)

/-- C10 witness: reading a 5-byte regular file at descriptor offset 3 —
the copied bytes still come from the start of the file. -/
theorem ext2_read_copies_from_start_witness :
    (∀ i, i * Ext2.superblock_to_blocksize sbIncompat < inodeR.size + 3 →
      ∃ blk, Ext2.read_inode_block sbIncompat tblW rbW inodeR i = some blk ∧
        blk.length = Ext2.superblock_to_blocksize sbIncompat) ∧
    ((Ext2.ext2_read_file sbIncompat tblW rbW inodeR 3 5).copied.length =
      (Ext2.ext2_read_file sbIncompat tblW rbW inodeR 3 5).ret.toNat ∧
    ∀ i, i < (Ext2.ext2_read_file sbIncompat tblW rbW inodeR 3 5).ret.toNat →
      (Ext2.ext2_read_file sbIncompat tblW rbW inodeR 3 5).copied.getD i 0 =
        Ext2.inodeByte sbIncompat tblW rbW inodeR i) := by
  have hr : ∀ i, i * Ext2.superblock_to_blocksize sbIncompat <
      inodeR.size + 3 →
      ∃ blk, Ext2.read_inode_block sbIncompat tblW rbW inodeR i = some blk ∧
        blk.length = Ext2.superblock_to_blocksize sbIncompat := by
    intro i hi
    have hbs : Ext2.superblock_to_blocksize sbIncompat = 1024 := by rfl
    have hszr : inodeR.size = 5 := by rfl
    have hi0 : i = 0 := by
      rw [hbs, hszr] at hi
      omega
    subst hi0
    refine ⟨List.replicate 1024 7, by rfl, by rw [hbs, List.length_replicate]⟩
  exact ⟨hr, ext2_read_copies_from_start sbIncompat tblW rbW inodeR 3 5 hr⟩

/-- Helper: `noAdjFree` of a cons in terms of the head flag of the tail. -/
theorem noAdjFree_cons (c : Kmalloc.Block) (ys : List Kmalloc.Block) :
    Kmalloc.noAdjFree (c :: ys) =
      (!(c.free && Kmalloc.headFree ys) && Kmalloc.noAdjFree ys) := by
  cases ys with
  | nil => simp [Kmalloc.noAdjFree, Kmalloc.headFree]
  | cons d rest => simp [Kmalloc.noAdjFree, Kmalloc.headFree]

/-- Helper: the body of `free_block` preserves the no-adjacent-free-blocks
invariant, and away from the target it does not change the head flag of
the suffix it walked. -/
theorem freeGo_noAdj (tgt : Nat) : ∀ (bs : List Kmalloc.Block) (cur : Nat),
    Kmalloc.noAdjFree bs = true →
    ∀ out, Kmalloc.freeGo tgt cur bs = some out →
    Kmalloc.noAdjFree out.1 = true ∧
      (cur ≠ tgt → Kmalloc.headFree out.1 = Kmalloc.headFree bs) := by
  intro bs
  induction bs with
  | nil =>
    intro cur hn out hout
    exact absurd hout (by simp [Kmalloc.freeGo])
  | cons c tail ih =>
    intro cur hn out hout
    cases tail with
    | nil =>
      unfold Kmalloc.freeGo at hout
      by_cases hc : cur = tgt
      · rw [if_pos hc] at hout
        cases hout
        refine ⟨by simp [Kmalloc.noAdjFree], ?_⟩
        intro h
        exact absurd hc h
      · rw [if_neg hc] at hout
        exact absurd hout (by simp)
    | cons n rest2 =>
      rw [noAdjFree_cons, Bool.and_eq_true, noAdjFree_cons,
        Bool.and_eq_true] at hn
      have hcn := hn.1
      have hnrest := hn.2.1
      have hrest := hn.2.2
      simp only [Kmalloc.headFree] at hcn
      unfold Kmalloc.freeGo at hout
      by_cases hc : cur = tgt
      · rw [if_pos hc] at hout
        by_cases hnf : n.free = true
        · rw [if_pos hnf] at hout
          cases hout
          refine ⟨?_, fun h => absurd hc h⟩
          rw [noAdjFree_cons]
          rw [hnf] at hnrest
          simp only [Bool.true_and, Bool.not_eq_true'] at hnrest
          simp [hnrest, hrest]
        · rw [if_neg hnf] at hout
          cases hout
          refine ⟨?_, fun h => absurd hc h⟩
          rw [noAdjFree_cons]
          simp only [Kmalloc.headFree]
          rw [noAdjFree_cons]
          simp only [Bool.not_eq_true] at hnf
          simp [hnf, hnrest, hrest]
      · rw [if_neg hc] at hout
        by_cases hprev : cur + Kmalloc.fullSize c = tgt ∧ c.free = true
        · rw [if_pos hprev] at hout
          cases rest2 with
          | nil =>
            have hout2 : some
                ([({ size := c.size + Kmalloc.fullSize n, free := true } :
                  Kmalloc.Block)], false, (none : Option Nat)) = some out :=
              hout
            cases hout2
            exact ⟨by simp [Kmalloc.noAdjFree], fun _ => by
              simp [Kmalloc.headFree, hprev.2]⟩
          | cons m rest3 =>
            have hout2 : (if m.free then
                some (({ size := c.size + Kmalloc.fullSize n +
                    Kmalloc.fullSize m, free := true } : Kmalloc.Block) ::
                  rest3, false, some (tgt + Kmalloc.fullSize n))
              else
                some (({ size := c.size + Kmalloc.fullSize n, free := true } :
                    Kmalloc.Block) ::
                  m :: rest3, false, (none : Option Nat))) = some out := hout
            rw [noAdjFree_cons, Bool.and_eq_true] at hrest
            by_cases hmf : m.free = true
            · rw [if_pos hmf] at hout2
              cases hout2
              refine ⟨?_, fun _ => by simp [Kmalloc.headFree, hprev.2]⟩
              rw [noAdjFree_cons]
              obtain ⟨hm1, hm2⟩ := hrest
              rw [hmf] at hm1
              simp only [Bool.true_and, Bool.not_eq_true'] at hm1
              simp [hm1, hm2]
            · rw [if_neg hmf] at hout2
              cases hout2
              refine ⟨?_, fun _ => by simp [Kmalloc.headFree, hprev.2]⟩
              rw [noAdjFree_cons]
              simp only [Kmalloc.headFree]
              simp only [Bool.not_eq_true] at hmf
              rw [noAdjFree_cons]
              simp [hmf, hrest.1, hrest.2]
        · rw [if_neg hprev] at hout
          cases hrec : Kmalloc.freeGo tgt (cur + Kmalloc.fullSize c)
              (n :: rest2) with
          | none => rw [hrec] at hout; exact absurd hout (by simp)
          | some r =>
            rw [hrec] at hout
            simp only [Option.map_some'] at hout
            cases hout
            have hn2 : Kmalloc.noAdjFree (n :: rest2) = true := by
              rw [noAdjFree_cons]
              simp [hnrest, hrest]
            obtain ⟨ih1, ih2⟩ := ih (cur + Kmalloc.fullSize c) hn2 r hrec
            refine ⟨?_, fun _ => by simp [Kmalloc.headFree]⟩
            rw [noAdjFree_cons]
            by_cases hct : cur + Kmalloc.fullSize c = tgt
            · have hcf : c.free = false := by
                by_contra hcf
                simp only [Bool.not_eq_false] at hcf
                exact hprev ⟨hct, hcf⟩
              simp [hcf, ih1]
            · rw [ih2 hct]
              simp only [Kmalloc.headFree]
              simp [ih1]
              rcases Bool.eq_false_or_eq_true c.free with hcf | hcf
              · right
                rw [hcf] at hcn
                simpa using hcn
              · exact Or.inl hcf

/-- Helper: `free_block` preserves the no-adjacent-free-blocks invariant. -/
theorem free_block_noAdj (h : Kmalloc.Heap) (a : Nat)
    (hn : Kmalloc.noAdjFree h.blocks = true) :
    Kmalloc.noAdjFree (Kmalloc.free_block h a).blocks = true := by
  unfold Kmalloc.free_block
  cases hgo : Kmalloc.freeGo a h.start h.blocks with
  | none => exact hn
  | some r =>
    exact (freeGo_noAdj a h.blocks h.start hn r hgo).1

/-- Helper: the body of `split_block` preserves the invariant and keeps the
head flag of the walked suffix (the carved-off remainder's type field is
uninitialized, modelled `TYPE_USED`). -/
theorem splitGo_noAdj (tgt sz : Nat) : ∀ (bs : List Kmalloc.Block) (cur : Nat),
    Kmalloc.noAdjFree bs = true →
    ∀ out, Kmalloc.splitGo tgt sz cur bs = some out →
    Kmalloc.noAdjFree out = true ∧
      Kmalloc.headFree out = Kmalloc.headFree bs := by
  intro bs
  induction bs with
  | nil =>
    intro cur hn out hout
    exact absurd hout (by simp [Kmalloc.splitGo])
  | cons c rest ih =>
    intro cur hn out hout
    rw [noAdjFree_cons, Bool.and_eq_true] at hn
    unfold Kmalloc.splitGo at hout
    by_cases hc : cur = tgt
    · rw [if_pos hc] at hout
      by_cases hsmall : c.size < sz + Kmalloc.HDR + Kmalloc.FTR + Kmalloc.MINSZ
      · rw [if_pos hsmall] at hout
        exact absurd hout (by simp)
      · rw [if_neg hsmall] at hout
        cases hout
        refine ⟨?_, by simp [Kmalloc.headFree]⟩
        rw [noAdjFree_cons, noAdjFree_cons]
        simp [Kmalloc.headFree, hn.2]
    · rw [if_neg hc] at hout
      cases hrec : Kmalloc.splitGo tgt sz (cur + Kmalloc.fullSize c) rest with
      | none => rw [hrec] at hout; exact absurd hout (by simp)
      | some r =>
        rw [hrec] at hout
        simp only [Option.map_some'] at hout
        cases hout
        obtain ⟨ih1, ih2⟩ := ih (cur + Kmalloc.fullSize c) hn.2 r hrec
        refine ⟨?_, by simp [Kmalloc.headFree]⟩
        rw [noAdjFree_cons, ih2]
        simp [ih1]
        rcases Bool.eq_false_or_eq_true c.free with hcf | hcf
        · right
          have hh := hn.1
          rw [hcf] at hh
          simpa using hh
        · exact Or.inl hcf

/-- Helper: `split_block` preserves the invariant. -/
theorem split_block_noAdj (h : Kmalloc.Heap) (a sz : Nat)
    (hn : Kmalloc.noAdjFree h.blocks = true) (h2 : Kmalloc.Heap)
    (hs : Kmalloc.split_block h a sz = some h2) :
    Kmalloc.noAdjFree h2.blocks = true := by
  unfold Kmalloc.split_block at hs
  cases hgo : Kmalloc.splitGo a sz h.start h.blocks with
  | none => rw [hgo] at hs; exact absurd hs (by simp)
  | some bs2 =>
    rw [hgo] at hs
    simp only [Option.map_some'] at hs
    cases hs
    exact (splitGo_noAdj a sz h.blocks h.start hn bs2 hgo).1

/-- Helper: marking a block `TYPE_USED` preserves the invariant, and can
only clear (never set) the head flag of the walked suffix. -/
theorem setTypeGo_used_noAdj (tgt : Nat) : ∀ (bs : List Kmalloc.Block)
    (cur : Nat), Kmalloc.noAdjFree bs = true →
    Kmalloc.noAdjFree (Kmalloc.setTypeGo tgt false cur bs) = true ∧
      (Kmalloc.headFree (Kmalloc.setTypeGo tgt false cur bs) = true →
        Kmalloc.headFree bs = true) := by
  intro bs
  induction bs with
  | nil =>
    intro cur hn
    exact ⟨hn, by simp [Kmalloc.setTypeGo]⟩
  | cons c rest ih =>
    intro cur hn
    rw [noAdjFree_cons, Bool.and_eq_true] at hn
    unfold Kmalloc.setTypeGo
    by_cases hc : cur = tgt
    · rw [if_pos hc]
      refine ⟨?_, by simp [Kmalloc.headFree]⟩
      rw [noAdjFree_cons]
      have hrest : Kmalloc.noAdjFree rest = true := by
        cases rest with
        | nil => rfl
        | cons d tl => exact hn.2
      simp [hrest]
    · rw [if_neg hc]
      have hrest : Kmalloc.noAdjFree rest = true := by
        cases rest with
        | nil => rfl
        | cons d tl => exact hn.2
      obtain ⟨ih1, ih2⟩ := ih (cur + Kmalloc.fullSize c) hrest
      refine ⟨?_, by simp [Kmalloc.headFree]⟩
      rw [noAdjFree_cons]
      simp [ih1]
      rcases Bool.eq_false_or_eq_true c.free with hcf | hcf
      · rcases Bool.eq_false_or_eq_true
            (Kmalloc.headFree (Kmalloc.setTypeGo tgt false
              (cur + Kmalloc.fullSize c) rest)) with hh | hh
        · right
          have := ih2 hh
          rw [hcf] at hn
          simp only [Bool.true_and, Bool.not_eq_true'] at hn
          rw [hn.1] at this
          exact absurd this (by simp)
        · exact Or.inr hh
      · exact Or.inl hcf

/-- Helper: appending a used block keeps the invariant. -/
theorem noAdjFree_append_used : ∀ (bs : List Kmalloc.Block)
    (b : Kmalloc.Block), b.free = false → Kmalloc.noAdjFree bs = true →
    Kmalloc.noAdjFree (bs ++ [b]) = true := by
  intro bs
  induction bs with
  | nil =>
    intro b hb hn
    simp [Kmalloc.noAdjFree]
  | cons c rest ih =>
    intro b hb hn
    rw [noAdjFree_cons, Bool.and_eq_true] at hn
    rw [List.cons_append, noAdjFree_cons]
    have hrest : Kmalloc.noAdjFree rest = true := by
      cases rest with
      | nil => rfl
      | cons d tl => exact hn.2
    have hih := ih b hb hrest
    simp [hih]
    cases rest with
    | nil => simp [Kmalloc.headFree, hb]
    | cons d tl =>
      simp only [List.cons_append, Kmalloc.headFree]
      have := hn.1
      simp only [Kmalloc.headFree] at this
      rcases Bool.eq_false_or_eq_true c.free with hcf | hcf
      · right
        rw [hcf] at this
        simpa using this
      · exact Or.inl hcf

/-- Helper: the free-list scan of `get_free_block` returns a heap whose
arena still satisfies the invariant. -/
theorem gfbScan_noAdj (h : Kmalloc.Heap) (sz : Nat) (align : Bool)
    (hn : Kmalloc.noAdjFree h.blocks = true) :
    ∀ (cands : List Nat) (out : Nat × Kmalloc.Heap),
    Kmalloc.gfbScan h sz align cands = some out →
    Kmalloc.noAdjFree out.2.blocks = true := by
  intro cands
  induction cands with
  | nil =>
    intro out hout
    exact absurd hout (by simp [Kmalloc.gfbScan])
  | cons a rest ih =>
    intro out hout
    unfold Kmalloc.gfbScan at hout
    by_cases hal : align = true
    · subst hal
      simp only [reduceIte] at hout
      split at hout
      · exact ih out hout
      · split at hout
        · exact ih out hout
        · split at hout
          · split at hout
            · rename_i h2 hsplit
              cases hout
              have h2n : Kmalloc.noAdjFree h2.blocks = true :=
                split_block_noAdj { h with fl := h.fl.erase a } a _ hn h2
                  hsplit
              have h3n : Kmalloc.noAdjFree
                  (Kmalloc.setType h2 a false).blocks = true :=
                (setTypeGo_used_noAdj a h2.blocks h2.start h2n).1
              exact free_block_noAdj _ _ h3n
            · cases hout
              exact hn
          · exact ih out hout
    · have hal2 : align = false := by simpa using hal
      subst hal2
      simp only [Bool.false_eq_true, if_false] at hout
      split at hout
      · exact ih out hout
      · split at hout
        · exact ih out hout
        · split at hout
          · split at hout
            · rename_i h2 hsplit
              cases hout
              have h2n : Kmalloc.noAdjFree h2.blocks = true :=
                split_block_noAdj { h with fl := h.fl.erase a } a _ hn h2
                  hsplit
              have h3n : Kmalloc.noAdjFree
                  (Kmalloc.setType h2 a false).blocks = true :=
                (setTypeGo_used_noAdj a h2.blocks h2.start h2n).1
              exact free_block_noAdj _ _ h3n
            · cases hout
              exact hn
          · exact ih out hout

/-- Helper: the shared allocation tail of `_kmalloc` preserves the
invariant. -/
theorem kmallocFinish_noAdj (h : Kmalloc.Heap) (a aoff : Nat) (align : Bool)
    (hn : Kmalloc.noAdjFree h.blocks = true) (p : Nat × Kmalloc.Heap)
    (hres : Kmalloc.kmallocFinish h a aoff align = some p) :
    Kmalloc.noAdjFree p.2.blocks = true := by
  unfold Kmalloc.kmallocFinish at hres
  by_cases hal : align = true ∧ aoff ≠ 0
  · rw [if_pos hal] at hres
    cases hsplit : Kmalloc.split_block h a (aoff - Kmalloc.HDR - Kmalloc.FTR)
        with
    | none => rw [hsplit] at hres; exact absurd hres (by simp)
    | some h2 =>
      rw [hsplit] at hres
      have hres2 : some (a + aoff + Kmalloc.HDR,
          Kmalloc.setType (Kmalloc.free_block
            (Kmalloc.setType h2 (a + aoff) false) a) (a + aoff) false) =
          some p := hres
      cases hres2
      have h2n := split_block_noAdj h a _ hn h2 hsplit
      have h3n : Kmalloc.noAdjFree
          (Kmalloc.setType h2 (a + aoff) false).blocks = true :=
        (setTypeGo_used_noAdj (a + aoff) h2.blocks h2.start h2n).1
      have h4n := free_block_noAdj (Kmalloc.setType h2 (a + aoff) false) a h3n
      exact (setTypeGo_used_noAdj (a + aoff) _ _ h4n).1
  · rw [if_neg hal] at hres
    cases hres
    exact (setTypeGo_used_noAdj a h.blocks h.start hn).1

/-- Helper: `_kmalloc` preserves the invariant. -/
theorem kmalloc_step_noAdj (h : Kmalloc.Heap) (sz : Nat) (align : Bool)
    (hn : Kmalloc.noAdjFree h.blocks = true) (p : Nat × Kmalloc.Heap)
    (hres : Kmalloc._kmalloc h sz align = some p) :
    Kmalloc.noAdjFree p.2.blocks = true := by
  unfold Kmalloc._kmalloc at hres
  split at hres
  · rename_i r hgfb
    have hgfb2 : Kmalloc.gfbScan h (Kmalloc.roundSz sz) align h.fl =
        some r := hgfb
    have hrn : Kmalloc.noAdjFree r.2.blocks = true :=
      gfbScan_noAdj h _ align hn h.fl r hgfb2
    exact kmallocFinish_noAdj r.2 r.1 _ align hrn p hres
  · split at hres
    · exact absurd hres (by simp)
    · refine kmallocFinish_noAdj _ _ _ align ?_ p hres
      exact noAdjFree_append_used h.blocks _ rfl hn

/-- Helper: `_kfree` preserves the invariant. -/
theorem kfree_step_noAdj (h : Kmalloc.Heap) (ptr : Nat)
    (hn : Kmalloc.noAdjFree h.blocks = true) :
    Kmalloc.noAdjFree (Kmalloc._kfree h ptr).blocks = true := by
  have hcast : Kmalloc._kfree h ptr =
      (if ptr < Kmalloc.HDR then h
      else match Kmalloc.blockAt (ptr - Kmalloc.HDR) h.start h.blocks with
        | none => h
        | some b =>
          if ptr - Kmalloc.HDR < h.start ∨ ptr ≥ Kmalloc.allocEnd h ∨
              b.free = true then h
          else Kmalloc.free_block h (ptr - Kmalloc.HDR)) := rfl
  rw [hcast]
  split
  · exact hn
  · split
    · exact hn
    · split
      · exact hn
      · exact free_block_noAdj h _ hn

/-- C5: starting from a freshly initialized arena, after every sequence of
successful `_kmalloc` and `_kfree` operations no two physically adjacent
blocks of the arena are both `TYPE_FREE` (`free_block` coalesces with the
predecessor found via the footer and with the successor whenever either
is free). -/
theorem kmalloc_no_adjacent_free (start maxAddr : Nat)
    (ops : List Kmalloc.KOp) (h : Kmalloc.Heap)
    (hrun : Kmalloc.kRun start maxAddr ops = some h) :
    Kmalloc.noAdjFree h.blocks = true := by
  have main : ∀ (ops : List Kmalloc.KOp) (h0 h : Kmalloc.Heap),
      Kmalloc.noAdjFree h0.blocks = true →
      List.foldlM Kmalloc.kStep h0 ops = some h →
      Kmalloc.noAdjFree h.blocks = true := by
    intro ops
    induction ops with
    | nil =>
      intro h0 h hn hrun
      rw [List.foldlM_nil] at hrun
      cases hrun
      exact hn
    | cons op rest ih =>
      intro h0 h hn hrun
      rw [List.foldlM_cons] at hrun
      cases hstep : Kmalloc.kStep h0 op with
      | none => rw [hstep] at hrun; exact absurd hrun (by simp)
      | some h1 =>
        rw [hstep] at hrun
        simp only [Option.bind_eq_bind, Option.some_bind] at hrun
        refine ih h1 h ?_ hrun
        cases op with
        | malloc sz align =>
          simp only [Kmalloc.kStep] at hstep
          cases hm : Kmalloc._kmalloc h0 sz align with
          | none => rw [hm] at hstep; exact absurd hstep (by simp)
          | some p =>
            rw [hm] at hstep
            simp only [Option.map_some'] at hstep
            cases hstep
            exact kmalloc_step_noAdj h0 sz align hn p hm
        | mfree ptr =>
          simp only [Kmalloc.kStep] at hstep
          simp only [Option.some.injEq] at hstep
          cases hstep
          exact kfree_step_noAdj h0 ptr hn
  exact main ops _ h (by rfl) hrun

/-- C5 witness: the invariant via the main theorem on the concrete trace
`kOpsW`, whose final arena is one coalesced free block. -/
theorem kmalloc_no_adjacent_free_witness :
    Kmalloc.kRun 0 100000 kOpsW = some kHeapW ∧
    Kmalloc.noAdjFree kHeapW.blocks = true :=
  ⟨by decide, kmalloc_no_adjacent_free 0 100000 kOpsW kHeapW (by decide)⟩

/-- Helper: the alignment offset moves a content address to a page
boundary. -/
theorem align_offset_aligns (a : Nat) :
    (a + Kmalloc.HDR + Kmalloc.get_alignment_offset a) %
      Kmalloc.PAGE_SIZE = 0 := by
  have hexp : Kmalloc.get_alignment_offset a =
      (if (a + 8) % 4096 ≠ 0 then
        (if 4096 - (a + 8) % 4096 < 256 then 4096 - (a + 8) % 4096 + 4096
         else 4096 - (a + 8) % 4096)
      else 0) := rfl
  rw [hexp]
  unfold Kmalloc.HDR Kmalloc.PAGE_SIZE
  split_ifs <;> omega

/-- Helper: on an aligned request, both exit paths of the shared
`kmallocFinish` tail of `_kmalloc` yield a page-aligned content
address. -/
theorem kmallocFinish_aligned (h : Kmalloc.Heap) (a ptr : Nat)
    (h2 : Kmalloc.Heap)
    (hres : Kmalloc.kmallocFinish h a (Kmalloc.get_alignment_offset a) true
      = some (ptr, h2)) :
    ptr % Kmalloc.PAGE_SIZE = 0 := by
  have hal := align_offset_aligns a
  unfold Kmalloc.kmallocFinish at hres
  split at hres
  · split at hres
    · exact Option.noConfusion hres
    · simp only [Option.some.injEq, Prod.mk.injEq] at hres
      have hp := hres.1
      unfold Kmalloc.PAGE_SIZE Kmalloc.HDR at hal hp
      show ptr % 4096 = 0
      omega
  · rename_i hcond
    simp only [Option.some.injEq, Prod.mk.injEq] at hres
    have hp := hres.1
    have hz : Kmalloc.get_alignment_offset a = 0 := by
      by_contra hne
      exact hcond ⟨rfl, hne⟩
    rw [hz] at hal
    unfold Kmalloc.PAGE_SIZE Kmalloc.HDR at hal
    unfold Kmalloc.HDR at hp
    show ptr % 4096 = 0
    omega

/-- **C6.** Every pointer returned by a successful `_kmalloc` call with
`align = true` is page aligned (`ptr % 4096 = 0`), whether the block was
carved from an existing free block on the free list or from the end of
the arena. -/
theorem kmalloc_align_returns_page_aligned (h : Kmalloc.Heap)
    (sz ptr : Nat) (h2 : Kmalloc.Heap)
    (hres : Kmalloc._kmalloc h sz true = some (ptr, h2)) :
    ptr % 4096 = 0 := by
  unfold Kmalloc._kmalloc at hres
  split at hres
  · simp only [reduceIte] at hres
    exact kmallocFinish_aligned _ _ ptr h2 hres
  · split at hres
    · exact Option.noConfusion hres
    · simp only [reduceIte] at hres
      exact kmallocFinish_aligned _ _ ptr h2 hres

/-- C6 witness: on a fresh arena an aligned 16-byte request returns the
page-aligned content address 4096. -/
theorem kmalloc_align_returns_page_aligned_witness :
    Kmalloc._kmalloc kHeapInit 16 true = some (4096, kHeapAligned) ∧
      4096 % 4096 = 0 :=
  ⟨by decide,
   kmalloc_align_returns_page_aligned kHeapInit 16 4096 kHeapAligned
     (by decide)⟩

end Xelix
